import Mathlib

/-!
Shallow embedding of the generic search API of `search.rs` and `search_init.rs`
(linear and binary search behind one `search` entry point), together with
proofs of the specified properties.

Rust slices become `List`, `Cow` ownership disappears (the embedding is
purely functional, mutation of a list becomes returning the new list),
`usize` indices become `Nat`, the `Searchable` bound (`PartialEq + PartialOrd
+ Ord`) becomes `LinearOrder`, and Rust's stable ascending `sort` becomes
`List.mergeSort` with the `≤` comparator.
-/

/-- `SearchList` from `search.rs`: a list together with the caller-asserted
sorted flag. -/
structure SearchList (T : Type) where
  list : List T
  is_sorted : Bool
deriving Repr, DecidableEq

/-- `SearchList::sort` from `search.rs`: if the flag is not set, sort the list
ascending. (Note: the Rust code does not update `is_sorted` afterwards.) -/
def SearchList.sort {T : Type} [LinearOrder T] (self : SearchList T) : SearchList T :=
  if !self.is_sorted then { self with list := self.list.mergeSort } else self

/-- `SearchResult` from `search.rs`. -/
structure SearchResult where
  found : Bool
  index : Option Nat
deriving Repr, DecidableEq

/-- Recursive implementation of binary search algorithm (from `search.rs`):
empty view is not-found; otherwise compare at `mid = length / 2` and recurse
into `[0, mid)` or `[mid+1, end)`. The index is never reported. -/
def binary_search {T : Type} [LinearOrder T] (search_list : SearchList T) (item : T) :
    SearchResult :=
  if h : search_list.list.length = 0 then
    { found := false, index := none }
  else
    have hmid : search_list.list.length / 2 < search_list.list.length :=
      Nat.div_lt_self (Nat.pos_of_ne_zero h) one_lt_two
    if item = search_list.list.get ⟨search_list.list.length / 2, hmid⟩ then
      { found := true, index := none }
    else if item < search_list.list.get ⟨search_list.list.length / 2, hmid⟩ then
      binary_search
        { search_list with list := search_list.list.take (search_list.list.length / 2) } item
    else
      binary_search
        { search_list with list := search_list.list.drop (search_list.list.length / 2 + 1) } item
termination_by search_list.list.length
decreasing_by
  · simp only [List.length_take]
    omega
  · simp only [List.length_drop]
    omega

/-- Recursive implementation of linear search algorithm (from `search.rs`):
empty view is not-found; a match at the head is found at index 0; if the list
is flagged sorted and the item is below the head, exit early with not-found;
otherwise recurse on the tail and shift the returned index by one. -/
def linear_search {T : Type} [LinearOrder T] (search_list : SearchList T) (item : T) :
    SearchResult :=
  match h : search_list.list with
  | [] => { found := false, index := none }
  | x :: rest =>
    if item = x then
      { found := true, index := some 0 }
    else if search_list.is_sorted && decide (item < x) then
      { found := false, index := none }
    else
      let search_result := linear_search { search_list with list := rest } item
      { search_result with index := search_result.index.map (fun i => i + 1) }
termination_by search_list.list.length
decreasing_by
  simp only [h, List.length_cons]
  omega

/-- `SearchKind` from `search.rs`. -/
inductive SearchKind where
  | CheckPresence
  | FindIndex
deriving Repr, DecidableEq

/-- User-facing function to search for an item in a list (from `search.rs`). -/
def search {T : Type} [LinearOrder T] (search_list : SearchList T) (item : T)
    (kind : SearchKind) : SearchResult :=
  match kind with
  | SearchKind.CheckPresence => binary_search search_list.sort item
  | SearchKind.FindIndex => linear_search search_list item

/-- The state of the search list when `search` returns: the `CheckPresence`
branch runs `SearchList::sort` on it before binary search, the `FindIndex`
branch passes it to `linear_search` untouched (no statement in that branch
writes to the list). -/
def search_post {T : Type} [LinearOrder T] (search_list : SearchList T)
    (kind : SearchKind) : SearchList T :=
  match kind with
  | SearchKind.CheckPresence => search_list.sort
  | SearchKind.FindIndex => search_list

namespace SearchInit

/-!
Embedding of `search_init.rs`, the direct-translation variant of the same API:
`linear_search` returns the optional index, `binary_search` returns the bare
boolean, and `search` dispatches on the `check` flag, sorting the slice in
place first when `check` is set and `is_sorted` is not.
-/

/-- Recursive implementation of linear search algorithm (from `search_init.rs`). -/
def linear_search {T : Type} [LinearOrder T] (item : T) (item_list : List T)
    (is_sorted : Bool) : Option Nat :=
  match item_list with
  | [] => none
  | x :: rest =>
    if item = x then
      some 0
    else if is_sorted && decide (item < x) then
      none
    else
      (linear_search item rest is_sorted).map (fun i => i + 1)

/-- Recursive implementation of binary search algorithm (from `search_init.rs`). -/
def binary_search {T : Type} [LinearOrder T] (item : T) (item_list : List T) : Bool :=
  if h : item_list.length = 0 then
    false
  else
    have hmid : item_list.length / 2 < item_list.length :=
      Nat.div_lt_self (Nat.pos_of_ne_zero h) one_lt_two
    if item = item_list.get ⟨item_list.length / 2, hmid⟩ then
      true
    else if item < item_list.get ⟨item_list.length / 2, hmid⟩ then
      binary_search item (item_list.take (item_list.length / 2))
    else
      binary_search item (item_list.drop (item_list.length / 2 + 1))
termination_by item_list.length
decreasing_by
  · simp only [List.length_take]
    omega
  · simp only [List.length_drop]
    omega

/-- `SearchResult` from `search_init.rs`: one variant per algorithm. -/
inductive SearchResult where
  | Linear : Option Nat → SearchResult
  | Binary : Bool → SearchResult
deriving Repr, DecidableEq

/-- User-facing function to search for an item in a list (from `search_init.rs`).
The Rust function takes the slice as `&mut [T]` and may sort it in place, so the
embedding returns the result together with the slice contents on return. -/
def search {T : Type} [LinearOrder T] (item : T) (item_list : List T)
    (check : Bool) (is_sorted : Bool) : SearchInit.SearchResult × List T :=
  if check then
    let sorted_list := if !is_sorted then item_list.mergeSort else item_list
    (SearchResult.Binary (SearchInit.binary_search item sorted_list), sorted_list)
  else
    (SearchResult.Linear (SearchInit.linear_search item item_list is_sorted), item_list)

end SearchInit

/-- The plain front-to-back scan that the spec describes linear search as
refining: report the head match at relative index 0, otherwise recurse on the
tail and shift a found index by one. It omits the sorted-flag early exit
(step 3), so it is the reference point for the claim that the early exit
never changes the result. -/
def plainScan {T : Type} [LinearOrder T] : List T → T → SearchResult
  | [], _ => { found := false, index := none }
  | y :: rest, item =>
    if item = y then
      { found := true, index := some 0 }
    else
      let r := plainScan rest item
      { r with index := r.index.map (fun i => i + 1) }

/-! ### Unfolding lemmas -/

lemma linear_search_nil {T : Type} [LinearOrder T] (s : Bool) (x : T) :
    linear_search ⟨[], s⟩ x = ⟨false, none⟩ := by
  rw [linear_search]

lemma linear_search_cons {T : Type} [LinearOrder T] (y : T) (rest : List T) (s : Bool) (x : T) :
    linear_search ⟨y :: rest, s⟩ x =
      if x = y then ⟨true, some 0⟩
      else if s && decide (x < y) then ⟨false, none⟩
      else
        ⟨(linear_search ⟨rest, s⟩ x).found,
          (linear_search ⟨rest, s⟩ x).index.map (fun i => i + 1)⟩ := by
  rw [linear_search]

lemma binary_search_eq {T : Type} [LinearOrder T] (l : List T) (b : Bool) (x : T) :
    binary_search ⟨l, b⟩ x =
      if h : l.length = 0 then ⟨false, none⟩
      else
        have hmid : l.length / 2 < l.length :=
          Nat.div_lt_self (Nat.pos_of_ne_zero h) one_lt_two
        if x = l.get ⟨l.length / 2, hmid⟩ then ⟨true, none⟩
        else if x < l.get ⟨l.length / 2, hmid⟩ then
          binary_search ⟨l.take (l.length / 2), b⟩ x
        else
          binary_search ⟨l.drop (l.length / 2 + 1), b⟩ x := by
  rw [binary_search]


/-! ### SearchList.sort lemmas -/

lemma sort_flag {T : Type} [LinearOrder T] (sl : SearchList T) :
    (SearchList.sort sl).is_sorted = sl.is_sorted := by
  unfold SearchList.sort
  split <;> rfl

lemma sort_of_flag_true {T : Type} [LinearOrder T] (sl : SearchList T)
    (h : sl.is_sorted = true) : SearchList.sort sl = sl := by
  unfold SearchList.sort
  simp [h]

lemma sort_of_flag_false {T : Type} [LinearOrder T] (sl : SearchList T)
    (h : sl.is_sorted = false) :
    SearchList.sort sl = ⟨sl.list.mergeSort, sl.is_sorted⟩ := by
  unfold SearchList.sort
  rw [h]
  simp

lemma sort_list_of_flag_false {T : Type} [LinearOrder T] (sl : SearchList T)
    (h : sl.is_sorted = false) : (SearchList.sort sl).list = sl.list.mergeSort := by
  rw [sort_of_flag_false sl h]

lemma sort_perm {T : Type} [LinearOrder T] (sl : SearchList T) :
    (SearchList.sort sl).list.Perm sl.list := by
  unfold SearchList.sort
  split
  · exact List.mergeSort_perm sl.list _
  · exact List.Perm.refl _

lemma sort_sorted {T : Type} [LinearOrder T] (sl : SearchList T)
    (h : sl.list.Sorted (· ≤ ·) ∨ sl.is_sorted = false) :
    (SearchList.sort sl).list.Sorted (· ≤ ·) := by
  cases hb : sl.is_sorted with
  | false => rw [sort_list_of_flag_false sl hb]; exact List.sorted_mergeSort' sl.list
  | true =>
    rw [sort_of_flag_true sl hb]
    rcases h with h | h
    · exact h
    · rw [hb] at h; cases h

lemma sort_idem {T : Type} [LinearOrder T] (sl : SearchList T) :
    SearchList.sort (SearchList.sort sl) = SearchList.sort sl := by
  cases hb : sl.is_sorted with
  | true => rw [sort_of_flag_true sl hb, sort_of_flag_true sl hb]
  | false =>
    have h1 : (SearchList.sort sl).is_sorted = false := by rw [sort_flag, hb]
    have h4 : (SearchList.sort sl).list.Sorted (· ≤ ·) := sort_sorted sl (Or.inr hb)
    rw [sort_of_flag_false _ h1, List.mergeSort_eq_self h4]

/-! ### Branch lemmas for binary search -/

lemma binary_search_zero {T : Type} [LinearOrder T] {l : List T} (b : Bool) (x : T)
    (h0 : l.length = 0) : binary_search ⟨l, b⟩ x = ⟨false, none⟩ := by
  rw [binary_search_eq, dif_pos h0]

lemma binary_search_hit {T : Type} [LinearOrder T] {l : List T} {x : T} (b : Bool)
    (hmid : l.length / 2 < l.length) (heq : x = l.get ⟨l.length / 2, hmid⟩) :
    binary_search ⟨l, b⟩ x = ⟨true, none⟩ := by
  have h0 : l.length ≠ 0 := by omega
  rw [binary_search_eq, dif_neg h0]
  dsimp only
  rw [if_pos heq]

lemma binary_search_left {T : Type} [LinearOrder T] {l : List T} {x : T} (b : Bool)
    (hmid : l.length / 2 < l.length) (hne : ¬ x = l.get ⟨l.length / 2, hmid⟩)
    (hlt : x < l.get ⟨l.length / 2, hmid⟩) :
    binary_search ⟨l, b⟩ x = binary_search ⟨l.take (l.length / 2), b⟩ x := by
  have h0 : l.length ≠ 0 := by omega
  rw [binary_search_eq, dif_neg h0]
  dsimp only
  rw [if_neg hne, if_pos hlt]

lemma binary_search_right {T : Type} [LinearOrder T] {l : List T} {x : T} (b : Bool)
    (hmid : l.length / 2 < l.length) (hne : ¬ x = l.get ⟨l.length / 2, hmid⟩)
    (hnlt : ¬ x < l.get ⟨l.length / 2, hmid⟩) :
    binary_search ⟨l, b⟩ x = binary_search ⟨l.drop (l.length / 2 + 1), b⟩ x := by
  have h0 : l.length ≠ 0 := by omega
  rw [binary_search_eq, dif_neg h0]
  dsimp only
  rw [if_neg hne, if_neg hnlt]

/-! ### Binary search never reports an index -/

lemma binary_search_index_none_aux {T : Type} [LinearOrder T] :
    ∀ (n : Nat) (l : List T) (b : Bool) (x : T), l.length = n →
      (binary_search ⟨l, b⟩ x).index = none := by
  intro n
  induction n using Nat.strong_induction_on with
  | _ n ih =>
    intro l b x hlen
    by_cases h0 : l.length = 0
    · rw [binary_search_zero b x h0]
    · have hmid : l.length / 2 < l.length :=
        Nat.div_lt_self (Nat.pos_of_ne_zero h0) one_lt_two
      by_cases heq : x = l.get ⟨l.length / 2, hmid⟩
      · rw [binary_search_hit b hmid heq]
      · by_cases hlt : x < l.get ⟨l.length / 2, hmid⟩
        · rw [binary_search_left b hmid heq hlt]
          exact ih _ (by simp only [List.length_take]; omega) _ b x rfl
        · rw [binary_search_right b hmid heq hlt]
          exact ih _ (by simp only [List.length_drop]; omega) _ b x rfl

lemma binary_search_index_none {T : Type} [LinearOrder T] (sl : SearchList T) (x : T) :
    (binary_search sl x).index = none := by
  obtain ⟨l, b⟩ := sl
  exact binary_search_index_none_aux l.length l b x rfl

/-! ### Binary search decides membership on sorted lists -/

lemma mem_take_of_sorted_of_lt {T : Type} [LinearOrder T] {l : List T} {x : T} {mid : Nat}
    (hs : l.Sorted (· ≤ ·)) (hmid : mid < l.length) (hx : x < l.get ⟨mid, hmid⟩) :
    x ∈ l ↔ x ∈ l.take mid := by
  constructor
  · intro hmem
    obtain ⟨⟨i, hi⟩, hieq⟩ := List.mem_iff_get.mp hmem
    have hilt : i < mid := by
      by_contra hge
      push_neg at hge
      have hle : l.get ⟨mid, hmid⟩ ≤ l.get ⟨i, hi⟩ :=
        hs.rel_get_of_le (Fin.mk_le_mk.mpr hge)
      rw [hieq] at hle
      exact absurd hx (not_lt.mpr hle)
    have hi' : i < (l.take mid).length := by
      simp only [List.length_take]
      omega
    refine List.mem_iff_get.mpr ⟨⟨i, hi'⟩, ?_⟩
    rw [List.get_eq_getElem, List.getElem_take]
    rw [List.get_eq_getElem] at hieq
    exact hieq
  · intro h
    exact List.take_subset _ _ h

lemma mem_drop_of_sorted_of_lt {T : Type} [LinearOrder T] {l : List T} {x : T} {mid : Nat}
    (hs : l.Sorted (· ≤ ·)) (hmid : mid < l.length) (hx : l.get ⟨mid, hmid⟩ < x) :
    x ∈ l ↔ x ∈ l.drop (mid + 1) := by
  constructor
  · intro hmem
    obtain ⟨⟨i, hi⟩, hieq⟩ := List.mem_iff_get.mp hmem
    have hilt : mid < i := by
      by_contra hge
      push_neg at hge
      have hle : l.get ⟨i, hi⟩ ≤ l.get ⟨mid, hmid⟩ :=
        hs.rel_get_of_le (Fin.mk_le_mk.mpr hge)
      rw [hieq] at hle
      exact absurd hx (not_lt.mpr hle)
    have hi' : i - (mid + 1) < (l.drop (mid + 1)).length := by
      simp only [List.length_drop]
      omega
    refine List.mem_iff_get.mpr ⟨⟨i - (mid + 1), hi'⟩, ?_⟩
    rw [List.get_eq_getElem, List.getElem_drop]
    have heq2 : mid + 1 + (i - (mid + 1)) = i := by omega
    simp only [heq2]
    rw [List.get_eq_getElem] at hieq
    exact hieq
  · intro h
    exact List.drop_subset _ _ h

lemma binary_search_found_iff_aux {T : Type} [LinearOrder T] :
    ∀ (n : Nat) (l : List T) (b : Bool) (x : T), l.length = n → l.Sorted (· ≤ ·) →
      ((binary_search ⟨l, b⟩ x).found = true ↔ x ∈ l) := by
  intro n
  induction n using Nat.strong_induction_on with
  | _ n ih =>
    intro l b x hlen hs
    by_cases h0 : l.length = 0
    · rw [binary_search_zero b x h0]
      simp [List.length_eq_zero.mp h0]
    · have hmid : l.length / 2 < l.length :=
        Nat.div_lt_self (Nat.pos_of_ne_zero h0) one_lt_two
      by_cases heq : x = l.get ⟨l.length / 2, hmid⟩
      · rw [binary_search_hit b hmid heq]
        simp only [true_iff]
        rw [heq]
        exact List.get_mem l _ _
      · by_cases hlt : x < l.get ⟨l.length / 2, hmid⟩
        · rw [binary_search_left b hmid heq hlt]
          have htake : (l.take (l.length / 2)).length < n := by
            simp only [List.length_take]
            omega
          have hst : (l.take (l.length / 2)).Sorted (· ≤ ·) :=
            hs.sublist (List.take_sublist _ _)
          rw [ih _ htake _ b x rfl hst]
          exact (mem_take_of_sorted_of_lt hs hmid hlt).symm
        · rw [binary_search_right b hmid heq hlt]
          have hgt : l.get ⟨l.length / 2, hmid⟩ < x :=
            lt_of_le_of_ne (not_lt.mp hlt) (fun hc => heq hc.symm)
          have hdrop : (l.drop (l.length / 2 + 1)).length < n := by
            simp only [List.length_drop]
            omega
          have hsd : (l.drop (l.length / 2 + 1)).Sorted (· ≤ ·) :=
            hs.sublist (List.drop_sublist _ _)
          rw [ih _ hdrop _ b x rfl hsd]
          exact (mem_drop_of_sorted_of_lt hs hmid hgt).symm

lemma binary_search_found_iff {T : Type} [LinearOrder T] (sl : SearchList T) (x : T)
    (hs : sl.list.Sorted (· ≤ ·)) :
    ((binary_search sl x).found = true ↔ x ∈ sl.list) := by
  obtain ⟨l, b⟩ := sl
  exact binary_search_found_iff_aux l.length l b x rfl hs

/-! ### Linear search versus the plain scan -/

lemma plainScan_of_mem {T : Type} [LinearOrder T] {l : List T} {x : T} (h : x ∈ l) :
    plainScan l x = ⟨true, some (List.indexOf x l)⟩ := by
  induction l with
  | nil => cases h
  | cons y rest ih =>
    by_cases h1 : x = y
    · subst h1
      simp [plainScan, List.indexOf_cons_self]
    · have hm : x ∈ rest := by
        rcases List.mem_cons.mp h with h2 | h2
        · exact absurd h2 h1
        · exact h2
      have hne : y ≠ x := fun hc => h1 hc.symm
      simp [plainScan, h1, ih hm, List.indexOf_cons_ne _ hne]

lemma plainScan_of_not_mem {T : Type} [LinearOrder T] {l : List T} {x : T} (h : x ∉ l) :
    plainScan l x = ⟨false, none⟩ := by
  induction l with
  | nil => rfl
  | cons y rest ih =>
    have h1 : ¬ x = y := fun hc => h (hc ▸ List.mem_cons_self y rest)
    have h2 : x ∉ rest := fun hc => h (List.mem_cons_of_mem y hc)
    simp [plainScan, h1, ih h2]

lemma linear_search_eq_plainScan {T : Type} [LinearOrder T] (x : T) :
    ∀ (l : List T) (s : Bool), (s = true → l.Sorted (· ≤ ·)) →
      linear_search ⟨l, s⟩ x = plainScan l x := by
  intro l
  induction l with
  | nil =>
    intro s _
    rw [linear_search_nil]
    rfl
  | cons y rest ih =>
    intro s h
    rw [linear_search_cons]
    by_cases h1 : x = y
    · simp [plainScan, h1]
    · rw [if_neg h1]
      by_cases h2 : (s && decide (x < y)) = true
      · rw [if_pos h2]
        simp only [Bool.and_eq_true, decide_eq_true_eq] at h2
        obtain ⟨hs, hlt⟩ := h2
        have hsorted := h hs
        have hnotmem : x ∉ y :: rest := by
          intro hmem
          rcases List.mem_cons.mp hmem with h3 | h3
          · exact h1 h3
          · exact absurd hlt (not_lt.mpr ((List.sorted_cons.mp hsorted).1 x h3))
        rw [plainScan_of_not_mem hnotmem]
      · rw [if_neg h2]
        rw [ih s (fun hs => (List.sorted_cons.mp (h hs)).2)]
        simp [plainScan, h1]

lemma linear_search_spec {T : Type} [LinearOrder T] (l : List T) (s : Bool) (x : T)
    (h : s = true → l.Sorted (· ≤ ·)) :
    ((linear_search ⟨l, s⟩ x).found = true ↔ x ∈ l) ∧
      (x ∈ l → (linear_search ⟨l, s⟩ x).index = some (List.indexOf x l)) ∧
      (x ∉ l → (linear_search ⟨l, s⟩ x).index = none) := by
  rw [linear_search_eq_plainScan x l s h]
  by_cases hm : x ∈ l
  · rw [plainScan_of_mem hm]
    simp [hm]
  · rw [plainScan_of_not_mem hm]
    simp [hm]

/-! ### The found flag tracks the index in linear search -/

lemma linear_search_found_eq_isSome {T : Type} [LinearOrder T] (x : T) :
    ∀ (l : List T) (s : Bool),
      (linear_search ⟨l, s⟩ x).found = (linear_search ⟨l, s⟩ x).index.isSome := by
  intro l
  induction l with
  | nil =>
    intro s
    rw [linear_search_nil]
    rfl
  | cons y rest ih =>
    intro s
    rw [linear_search_cons]
    by_cases h1 : x = y
    · simp [h1]
    · rw [if_neg h1]
      by_cases h2 : (s && decide (x < y)) = true
      · rw [if_pos h2]
        rfl
      · rw [if_neg h2]
        simp [ih s]

/-! ### Correspondence between the two Rust files -/

lemma searchInit_linear_eq {T : Type} [LinearOrder T] (x : T) :
    ∀ (l : List T) (s : Bool),
      SearchInit.linear_search x l s = (linear_search ⟨l, s⟩ x).index := by
  intro l
  induction l with
  | nil =>
    intro s
    rw [linear_search_nil]
    rfl
  | cons y rest ih =>
    intro s
    rw [linear_search_cons, SearchInit.linear_search]
    by_cases h1 : x = y
    · simp [h1]
    · rw [if_neg h1, if_neg h1]
      by_cases h2 : (s && decide (x < y)) = true
      · rw [if_pos h2, if_pos h2]
      · rw [if_neg h2, if_neg h2]
        simp [ih s]

lemma searchInit_binary_eq_aux {T : Type} [LinearOrder T] :
    ∀ (n : Nat) (l : List T) (b : Bool) (x : T), l.length = n →
      SearchInit.binary_search x l = (binary_search ⟨l, b⟩ x).found := by
  intro n
  induction n using Nat.strong_induction_on with
  | _ n ih =>
    intro l b x hlen
    by_cases h0 : l.length = 0
    · rw [binary_search_zero b x h0, SearchInit.binary_search, dif_pos h0]
    · have hmid : l.length / 2 < l.length :=
        Nat.div_lt_self (Nat.pos_of_ne_zero h0) one_lt_two
      by_cases heq : x = l.get ⟨l.length / 2, hmid⟩
      · rw [binary_search_hit b hmid heq, SearchInit.binary_search, dif_neg h0]
        dsimp only
        rw [if_pos heq]
      · by_cases hlt : x < l.get ⟨l.length / 2, hmid⟩
        · rw [binary_search_left b hmid heq hlt, SearchInit.binary_search, dif_neg h0]
          dsimp only
          rw [if_neg heq, if_pos hlt]
          exact ih _ (by simp only [List.length_take]; omega) _ b x rfl
        · rw [binary_search_right b hmid heq hlt, SearchInit.binary_search, dif_neg h0]
          dsimp only
          rw [if_neg heq, if_neg hlt]
          exact ih _ (by simp only [List.length_drop]; omega) _ b x rfl

lemma searchInit_binary_eq {T : Type} [LinearOrder T] (l : List T) (b : Bool) (x : T) :
    SearchInit.binary_search x l = (binary_search ⟨l, b⟩ x).found :=
  searchInit_binary_eq_aux l.length l b x rfl

lemma searchInit_search_check_eq {T : Type} [LinearOrder T] (l : List T) (s : Bool) (x : T) :
    SearchInit.search x l true s =
      (SearchInit.SearchResult.Binary ((search ⟨l, s⟩ x SearchKind.CheckPresence).found),
        (SearchList.sort ⟨l, s⟩).list) := by
  have hlist : (if !s then l.mergeSort else l) = (SearchList.sort ⟨l, s⟩).list := by
    cases s
    · rw [sort_list_of_flag_false ⟨l, false⟩ rfl]
      rfl
    · rw [sort_of_flag_true ⟨l, true⟩ rfl]
      rfl
  unfold SearchInit.search
  rw [if_pos rfl]
  dsimp only
  rw [hlist, searchInit_binary_eq _ (SearchList.sort ⟨l, s⟩).is_sorted x]
  rfl

/-! ### Claim theorems -/

/-- Claim C1, counterexample: the claim quantifies over every finite sequence, but a
`SearchList` whose sorted flag is set on an unsorted list makes the early exit
of linear search skip a genuine occurrence: searching for 1 in `[5, 1]` with
the flag set reports not-found although 1 is a member. -/
theorem C1_counterexample :
    (search (⟨[5, 1], true⟩ : SearchList ℕ) 1 SearchKind.FindIndex).found = false ∧
      1 ∈ ([5, 1] : List ℕ) := by
  constructor
  · show (linear_search (⟨[5, 1], true⟩ : SearchList ℕ) 1).found = false
    rw [linear_search_cons]
    norm_num
  · decide

/-- Claim C1 as amended: for every finite sequence whose sorted flag, when set, is
truthful (the list really is ascending-sorted), `search` in FindIndex mode
reports found exactly for members, the reported index is the 0-based position
of the first occurrence in original order, and the `search_init.rs` variant
returns that same index. -/
theorem C1_find_index_first_occurrence {T : Type} [LinearOrder T] (sl : SearchList T) (x : T)
    (h : sl.is_sorted = true → sl.list.Sorted (· ≤ ·)) :
    ((search sl x SearchKind.FindIndex).found = true ↔ x ∈ sl.list) ∧
      (x ∈ sl.list →
        (search sl x SearchKind.FindIndex).index = some (List.indexOf x sl.list)) ∧
      (x ∉ sl.list → (search sl x SearchKind.FindIndex).index = none) ∧
      SearchInit.linear_search x sl.list sl.is_sorted =
        (search sl x SearchKind.FindIndex).index := by
  obtain ⟨l, s⟩ := sl
  have hspec := linear_search_spec l s x h
  refine ⟨hspec.1, hspec.2.1, hspec.2.2, searchInit_linear_eq x l s⟩

/-- Witness for claim C1 at the sequence `[4, 7, 7]` with the flag off, searching 7. -/
theorem C1_witness :
    ((search (⟨[4, 7, 7], false⟩ : SearchList ℕ) 7 SearchKind.FindIndex).found = true ↔
        7 ∈ ([4, 7, 7] : List ℕ)) ∧
      (7 ∈ ([4, 7, 7] : List ℕ) →
        (search (⟨[4, 7, 7], false⟩ : SearchList ℕ) 7 SearchKind.FindIndex).index =
          some (List.indexOf 7 [4, 7, 7])) ∧
      (7 ∉ ([4, 7, 7] : List ℕ) →
        (search (⟨[4, 7, 7], false⟩ : SearchList ℕ) 7 SearchKind.FindIndex).index = none) ∧
      SearchInit.linear_search 7 [4, 7, 7] false =
        (search (⟨[4, 7, 7], false⟩ : SearchList ℕ) 7 SearchKind.FindIndex).index :=
  C1_find_index_first_occurrence ⟨[4, 7, 7], false⟩ 7 (by simp)

/-- Helper: in CheckPresence mode the found flag decides membership, provided
the list is already sorted or the flag is off (so the internal sort runs). -/
lemma check_presence_found_iff {T : Type} [LinearOrder T] (sl : SearchList T) (x : T)
    (h : sl.list.Sorted (· ≤ ·) ∨ sl.is_sorted = false) :
    ((search sl x SearchKind.CheckPresence).found = true ↔ x ∈ sl.list) := by
  show (binary_search sl.sort x).found = true ↔ x ∈ sl.list
  exact (binary_search_found_iff sl.sort x (sort_sorted sl h)).trans (sort_perm sl).mem_iff

/-- Claim C2: in CheckPresence mode, whenever the sequence is ascending-sorted or
becomes sorted by the internal sort (its flag is off), the found flag is true
exactly for members; the index is absent regardless of membership; and the
`search_init.rs` variant returns the same boolean. -/
theorem C2_check_presence_membership {T : Type} [LinearOrder T] (sl : SearchList T) (x : T)
    (h : sl.list.Sorted (· ≤ ·) ∨ sl.is_sorted = false) :
    ((search sl x SearchKind.CheckPresence).found = true ↔ x ∈ sl.list) ∧
      (search sl x SearchKind.CheckPresence).index = none ∧
      (SearchInit.search x sl.list true sl.is_sorted).1 =
        SearchInit.SearchResult.Binary ((search sl x SearchKind.CheckPresence).found) := by
  refine ⟨check_presence_found_iff sl x h, ?_, ?_⟩
  · show (binary_search sl.sort x).index = none
    exact binary_search_index_none sl.sort x
  · obtain ⟨l, s⟩ := sl
    rw [searchInit_search_check_eq l s x]

/-- Witness for claim C2 at the unsorted sequence `[3, 1, 2]` with the flag off,
searching 2 (hypothesis discharged through the flag being off). -/
theorem C2_witness :
    ((search (⟨[3, 1, 2], false⟩ : SearchList ℕ) 2 SearchKind.CheckPresence).found = true ↔
        2 ∈ ([3, 1, 2] : List ℕ)) ∧
      (search (⟨[3, 1, 2], false⟩ : SearchList ℕ) 2 SearchKind.CheckPresence).index = none ∧
      (SearchInit.search 2 [3, 1, 2] true false).1 =
        SearchInit.SearchResult.Binary
          ((search (⟨[3, 1, 2], false⟩ : SearchList ℕ) 2 SearchKind.CheckPresence).found) :=
  C2_check_presence_membership ⟨[3, 1, 2], false⟩ 2 (Or.inr rfl)

/-- Claim C3, counterexample: after the CheckPresence branch sorts the sequence
`[1, 0]` (flag off), the claim says the sorted flag has become true, but
`SearchList::sort` never updates the flag: it is still false, even though the
list itself is now ascending-sorted. -/
theorem C3_counterexample :
    (SearchList.sort (⟨[1, 0], false⟩ : SearchList ℕ)).is_sorted = false ∧
      (SearchList.sort (⟨[1, 0], false⟩ : SearchList ℕ)).list.Sorted (· ≤ ·) := by
  constructor
  · rw [sort_flag]
  · exact sort_sorted ⟨[1, 0], false⟩ (Or.inr rfl)

/-- Claim C3 as amended: in CheckPresence mode, if the flag is false the sequence is
sorted ascending in place (the search-list state that binary search runs on
holds an ascending-sorted permutation of the original list), but its
SortedFlag is left unchanged — it remains false rather than becoming true. -/
theorem C3_sort_sorts_but_flag_unchanged {T : Type} [LinearOrder T] (sl : SearchList T)
    (h : sl.is_sorted = false) :
    (search_post sl SearchKind.CheckPresence).list.Sorted (· ≤ ·) ∧
      (search_post sl SearchKind.CheckPresence).list.Perm sl.list ∧
      (search_post sl SearchKind.CheckPresence).is_sorted = false := by
  refine ⟨sort_sorted sl (Or.inr h), sort_perm sl, ?_⟩
  show (SearchList.sort sl).is_sorted = false
  rw [sort_flag]
  exact h

/-- Witness for claim C3 at the sequence `[2, 1]` with the flag off. -/
theorem C3_witness :
    (search_post (⟨[2, 1], false⟩ : SearchList ℕ) SearchKind.CheckPresence).list.Sorted
        (· ≤ ·) ∧
      (search_post (⟨[2, 1], false⟩ : SearchList ℕ) SearchKind.CheckPresence).list.Perm
        [2, 1] ∧
      (search_post (⟨[2, 1], false⟩ : SearchList ℕ) SearchKind.CheckPresence).is_sorted =
        false :=
  C3_sort_sorts_but_flag_unchanged ⟨[2, 1], false⟩ rfl

/-- Claim C4, counterexample: with the sorted flag set on the unsorted list `[7, 2]`,
the step 3 early exit reports not-found for 2 while the plain front-to-back
scan finds it at index 1, so the early exit does change the result. -/
theorem C4_counterexample :
    linear_search (⟨[7, 2], true⟩ : SearchList ℕ) 2 = ⟨false, none⟩ ∧
      plainScan ([7, 2] : List ℕ) 2 = ⟨true, some 1⟩ := by
  constructor
  · rw [linear_search_cons]
    norm_num
  · simp [plainScan]

/-- Claim C4 as amended: whenever the sorted flag, if set, is truthful, linear search
coincides with the plain front-to-back scan and decides membership; in
particular when the flag is false (take `h` vacuous) no comparison is ever
skipped and the plain-scan result is always returned. -/
theorem C4_linear_eq_plain_scan {T : Type} [LinearOrder T] (sl : SearchList T) (x : T)
    (h : sl.is_sorted = true → sl.list.Sorted (· ≤ ·)) :
    linear_search sl x = plainScan sl.list x ∧
      ((linear_search sl x).found = true ↔ x ∈ sl.list) := by
  obtain ⟨l, s⟩ := sl
  have heq := linear_search_eq_plainScan x l s h
  refine ⟨heq, (linear_search_spec l s x h).1⟩

/-- Witness for claim C4 at the unsorted list `[3, 1]` with the flag off, searching 1. -/
theorem C4_witness :
    linear_search (⟨[3, 1], false⟩ : SearchList ℕ) 1 = plainScan [3, 1] 1 ∧
      ((linear_search (⟨[3, 1], false⟩ : SearchList ℕ) 1).found = true ↔
        1 ∈ ([3, 1] : List ℕ)) :=
  C4_linear_eq_plain_scan ⟨[3, 1], false⟩ 1 (by simp)

/-- Claim C5: binary search follows exactly the specified recursive scheme (empty
view not-found; hit at `mid = length / 2` reports found without an index;
item below the mid element recurses into the left half, otherwise into the
right half), the `search_init.rs` variant computes the same boolean, and on
ascending-sorted input the scheme decides membership. -/
theorem C5_binary_scheme {T : Type} [LinearOrder T] (l : List T) (b : Bool) (x : T) :
    (l.length = 0 → binary_search ⟨l, b⟩ x = ⟨false, none⟩) ∧
      (∀ (hmid : l.length / 2 < l.length),
        (x = l.get ⟨l.length / 2, hmid⟩ → binary_search ⟨l, b⟩ x = ⟨true, none⟩) ∧
        (¬ x = l.get ⟨l.length / 2, hmid⟩ → x < l.get ⟨l.length / 2, hmid⟩ →
          binary_search ⟨l, b⟩ x = binary_search ⟨l.take (l.length / 2), b⟩ x) ∧
        (¬ x = l.get ⟨l.length / 2, hmid⟩ → ¬ x < l.get ⟨l.length / 2, hmid⟩ →
          binary_search ⟨l, b⟩ x = binary_search ⟨l.drop (l.length / 2 + 1), b⟩ x)) ∧
      (l.Sorted (· ≤ ·) → ((binary_search ⟨l, b⟩ x).found = true ↔ x ∈ l)) ∧
      SearchInit.binary_search x l = (binary_search ⟨l, b⟩ x).found := by
  refine ⟨fun h0 => binary_search_zero b x h0,
    fun hmid => ⟨fun heq => binary_search_hit b hmid heq,
      fun hne hlt => binary_search_left b hmid hne hlt,
      fun hne hnlt => binary_search_right b hmid hne hnlt⟩,
    fun hs => binary_search_found_iff ⟨l, b⟩ x hs,
    searchInit_binary_eq l b x⟩

/-- Witness for claim C5 at the sorted list `[1, 2, 3]`, searching 3: the scheme takes
the right half `[3]`, and the found flag decides membership. -/
theorem C5_witness :
    binary_search (⟨[1, 2, 3], true⟩ : SearchList ℕ) 3 =
        binary_search (⟨[3], true⟩ : SearchList ℕ) 3 ∧
      ((binary_search (⟨[1, 2, 3], true⟩ : SearchList ℕ) 3).found = true ↔
        3 ∈ ([1, 2, 3] : List ℕ)) := by
  have h := C5_binary_scheme ([1, 2, 3] : List ℕ) true 3
  constructor
  · have h2 := (h.2.1 (by norm_num)).2.2 (by decide) (by decide)
    have h3 : ([1, 2, 3] : List ℕ).drop ([1, 2, 3].length / 2 + 1) = [3] := by decide
    rw [h3] at h2
    exact h2
  · exact h.2.2.1 (by decide)

/-- Claim C6: CheckPresence on an unsorted sequence (flag off) produces the same
found value as CheckPresence on an ascending-sorted permutation of it, with
either flag value: the internal sort is transparent to the boolean outcome. -/
theorem C6_sort_transparent {T : Type} [LinearOrder T] (l ls : List T) (b : Bool) (x : T)
    (hsorted : ls.Sorted (· ≤ ·)) (hperm : ls.Perm l) :
    (search ⟨l, false⟩ x SearchKind.CheckPresence).found =
      (search ⟨ls, b⟩ x SearchKind.CheckPresence).found := by
  have h1 := check_presence_found_iff ⟨l, false⟩ x (Or.inr rfl)
  have h2 := check_presence_found_iff ⟨ls, b⟩ x (Or.inl hsorted)
  have h3 := hperm.mem_iff (a := x)
  cases hb1 : (search ⟨l, false⟩ x SearchKind.CheckPresence).found <;>
    cases hb2 : (search ⟨ls, b⟩ x SearchKind.CheckPresence).found <;>
      simp_all

/-- Witness for claim C6: `[2, 1]` unsorted with flag off versus its sorted permutation
`[1, 2]` flagged sorted, searching 2. -/
theorem C6_witness :
    (search (⟨[2, 1], false⟩ : SearchList ℕ) 2 SearchKind.CheckPresence).found =
      (search (⟨[1, 2], true⟩ : SearchList ℕ) 2 SearchKind.CheckPresence).found :=
  C6_sort_transparent [2, 1] [1, 2] true 2 (by decide) (by decide)

/-- Claim C7: two CheckPresence calls in a row on the same sequence object return
the same found value, and the second call's sort leaves the (already sorted)
sequence unchanged. -/
theorem C7_check_presence_idempotent {T : Type} [LinearOrder T] (sl : SearchList T) (x : T) :
    (search sl x SearchKind.CheckPresence).found =
        (search (search_post sl SearchKind.CheckPresence) x SearchKind.CheckPresence).found ∧
      SearchList.sort (search_post sl SearchKind.CheckPresence) =
        search_post sl SearchKind.CheckPresence := by
  have hidem := sort_idem sl
  constructor
  · show (binary_search sl.sort x).found =
      (binary_search (SearchList.sort (SearchList.sort sl)) x).found
    rw [hidem]
  · exact hidem

/-- Claim C8: in FindIndex mode `search` leaves the sequence exactly as it was —
the FindIndex branch performs no write to the list in either Rust file. -/
theorem C8_find_index_no_mutation {T : Type} [LinearOrder T] (sl : SearchList T)
    (l : List T) (s : Bool) (x : T) :
    search_post sl SearchKind.FindIndex = sl ∧
      (search_post sl SearchKind.FindIndex).list = sl.list ∧
      (SearchInit.search x l false s).2 = l :=
  ⟨rfl, rfl, rfl⟩

/-- Helper: the `search_init.rs` binary search on the empty slice is false. -/
lemma searchInit_binary_nil {T : Type} [LinearOrder T] (x : T) :
    SearchInit.binary_search x ([] : List T) = false := by
  rw [SearchInit.binary_search]
  rfl

/-- Claim C9: searching an empty sequence yields not-found with no index in both
modes (and in both Rust files), for any flag values. -/
theorem C9_empty_not_found {T : Type} [LinearOrder T] (x : T) (b s : Bool) :
    search ⟨[], b⟩ x SearchKind.FindIndex = ⟨false, none⟩ ∧
      search ⟨[], b⟩ x SearchKind.CheckPresence = ⟨false, none⟩ ∧
      (SearchInit.search x [] false s).1 = SearchInit.SearchResult.Linear none ∧
      (SearchInit.search x [] true s).1 = SearchInit.SearchResult.Binary false := by
  have hsort : SearchList.sort (⟨[], b⟩ : SearchList T) = ⟨[], b⟩ := by
    cases b
    · rw [sort_of_flag_false ⟨[], false⟩ rfl, List.mergeSort_nil]
    · rw [sort_of_flag_true ⟨[], true⟩ rfl]
  refine ⟨linear_search_nil b x, ?_, rfl, ?_⟩
  · show binary_search (SearchList.sort ⟨[], b⟩) x = ⟨false, none⟩
    rw [hsort]
    exact binary_search_zero b x rfl
  · unfold SearchInit.search
    rw [if_pos rfl]
    dsimp only
    cases s
    · simp only [Bool.not_false, if_pos, List.mergeSort_nil, searchInit_binary_nil]
    · simp only [Bool.not_true, Bool.false_eq_true, if_false, searchInit_binary_nil]

/-- Claim C10: every result of linear search (and hence of `search` in FindIndex
mode) has its found flag true exactly when an index is present. -/
theorem C10_found_eq_isSome {T : Type} [LinearOrder T] (sl : SearchList T) (x : T) :
    (linear_search sl x).found = (linear_search sl x).index.isSome ∧
      (search sl x SearchKind.FindIndex).found =
        (search sl x SearchKind.FindIndex).index.isSome := by
  obtain ⟨l, s⟩ := sl
  exact ⟨linear_search_found_eq_isSome x l s, linear_search_found_eq_isSome x l s⟩
